import Mathlib

set_option maxRecDepth 8000

/-!
Verification of `src/private_key.rs` of the hedera-sdk-rust repository: a
shallow embedding of the `PrivateKey` value type (generation, parsing from
byte encodings, canonical re-serialization, equality/hashing, public-key
access) together with theorems settling the specification's claims.

Bytes are modelled as `Fin 256`; byte buffers as `List Byte`. The external
Ed25519 public-key derivation (`ed25519_dalek::PublicKey::from(&secret)`) is
an arbitrary function of the 32 secret bytes, so every development below is
parameterized by a derivation function `derive`.
-/

namespace HederaSdk

abbrev Byte := Fin 256

deriving instance DecidableEq for Except

/-- Source: `const DER_PREFIX: &str = "302e020100300506032b657004220420";` -/
def derPrefixStr : String := "302e020100300506032b657004220420"

/-- Source: `DER_PREFIX_BYTES`, the hex-decoded bytes of `derPrefixStr`
(`Lazy::new(|| hex::decode(DER_PREFIX).unwrap())`). -/
def derPrefixBytes : List Byte :=
  [0x30, 0x2e, 0x02, 0x01, 0x00, 0x30, 0x05, 0x06,
   0x03, 0x2b, 0x65, 0x70, 0x04, 0x22, 0x04, 0x20]

/-- Modelled from the spec: the error taxonomy of §7 (`LengthError(n)`,
`SignatureError`, `HexDecodeError`). The repository's `KeyError` enum lives
in `key_error.rs`, which is not under `src/`; `private_key.rs` uses its
`Length` and `Signature` constructors and the hex-error conversion. The
`Signature` payload (the external primitive's diagnostic) and the hex
error's payload are irrelevant to every claim and are omitted. -/
inductive KeyError where
  | Length : Nat → KeyError
  | Signature : KeyError
  | HexDecode : KeyError
  deriving DecidableEq

/-- External type `ed25519_dalek::Keypair { public, secret }` as used by `private_key.rs`:
the secret is the raw 32-byte seed, the public is the derived component. -/
structure Keypair where
  public : List Byte
  secret : List Byte
  deriving DecidableEq

/-- The `PrivateKey` struct: `keypair: Keypair, chain_code: Option<[u8; 32]>`. -/
structure PrivateKey where
  keypair : Keypair
  chain_code : Option (List Byte)
  deriving DecidableEq

/-- External function `ed25519_dalek::SecretKey::from_bytes` (v1 semantics): succeeds
on exactly-32-byte input, returning those bytes; any other length is a
`SignatureError` (there is no further validation of the 32 bytes). The
caller in `private_key.rs` wraps the error via `KeyError::Signature`. -/
def SecretKey.from_bytes (bytes : List Byte) : Except KeyError (List Byte) :=
  if bytes.length = 32 then .ok bytes else .error KeyError.Signature

/-- Source: `fn to_keypair(entropy: &[u8]) -> Result<Keypair, KeyError>`:
`SecretKey::from_bytes(&entropy[0..32])`, then
`Keypair { public: PublicKey::from(&secret), secret }`. The Rust slice
`&entropy[0..32]` is `entropy.take 32` (every caller passes ≥ 32 bytes). -/
def to_keypair (derive : List Byte → List Byte) (entropy : List Byte) :
    Except KeyError Keypair :=
  match SecretKey.from_bytes (entropy.take 32) with
  | .error e => .error e
  | .ok secret => .ok { public := derive secret, secret := secret }

/-- Source: `PrivateKey::generate()` draws 64 random bytes `entropy` (here a
parameter), builds the keypair from `&entropy[0..32]` and stores
`&entropy[32..64]` as the chain code. The Rust `unwrap()`s are modelled by
returning `Except`; the success theorems show the error case is unreachable
for 64-byte entropy. -/
def PrivateKey.generate (derive : List Byte → List Byte) (entropy : List Byte) :
    Except KeyError PrivateKey :=
  match to_keypair derive (entropy.take 32) with
  | .error e => .error e
  | .ok kp => .ok { keypair := kp, chain_code := some ((entropy.drop 32).take 32) }

/-- Source: `PrivateKey::from_bytes(data)`, the length/DER-prefix dispatch.
`data.starts_with(&DER_PREFIX_BYTES)` on a 48-byte buffer is
`data.take 16 = derPrefixBytes`; `&data[16..]` is `data.drop 16`;
`&data[..SECRET_KEY_LENGTH]` is `data.take 32`. -/
def PrivateKey.from_bytes (derive : List Byte → List Byte) (data : List Byte) :
    Except KeyError PrivateKey :=
  if data.length = 32 then
    (to_keypair derive data).map fun kp => { keypair := kp, chain_code := none }
  else if data.length = 48 ∧ data.take 16 = derPrefixBytes then
    (to_keypair derive (data.drop 16)).map fun kp => { keypair := kp, chain_code := none }
  else if data.length = 64 then
    (to_keypair derive (data.take 32)).map fun kp => { keypair := kp, chain_code := none }
  else
    .error (KeyError.Length data.length)

/-- Source: `PrivateKey::to_bytes()`, the raw secret bytes. -/
def PrivateKey.to_bytes (k : PrivateKey) : List Byte :=
  k.keypair.secret

/-- Source: `PrivateKey::public_key()` returns the stored public component (the
`crate::PublicKey` newtype wrapper is identified with its content). -/
def PrivateKey.public_key (k : PrivateKey) : List Byte :=
  k.keypair.public

/-- Source: `impl PartialEq for PrivateKey` compares `keypair.secret.as_bytes()`. -/
def PrivateKey.beq (a b : PrivateKey) : Bool :=
  a.keypair.secret == b.keypair.secret

/-- Source: `impl Hash for PrivateKey` feeds exactly `keypair.secret.as_bytes()` to
the hasher; `hashBytes` is that byte stream, so two keys hash identically
iff their `hashBytes` agree. -/
def PrivateKey.hashBytes (k : PrivateKey) : List Byte :=
  k.keypair.secret

/-- Source: `impl AsRef<[u8]> for PrivateKey`, the secret bytes. -/
def PrivateKey.asRefBytes (k : PrivateKey) : List Byte :=
  k.keypair.secret

/-- Digit value used by the `hex` crate: `0-9`, `a-f`, `A-F`. -/
def hexDigitVal (c : Char) : Option Nat :=
  if '0' ≤ c ∧ c ≤ '9' then some (c.toNat - '0'.toNat)
  else if 'a' ≤ c ∧ c ≤ 'f' then some (c.toNat - 'a'.toNat + 10)
  else if 'A' ≤ c ∧ c ≤ 'F' then some (c.toNat - 'A'.toNat + 10)
  else none

/-- External `hex::decode` on a character list: two hex digits per byte; fails on an
odd-length input or a non-hex character. The `% 256` is a no-op (digit
values are below 16) making the `Fin 256` bound immediate. -/
def hexDecodeChars : List Char → Option (List Byte)
  | [] => some []
  | [_] => none
  | c1 :: c2 :: rest =>
    match hexDigitVal c1, hexDigitVal c2, hexDecodeChars rest with
    | some hi, some lo, some tail =>
        some (⟨(hi * 16 + lo) % 256, Nat.mod_lt _ (by omega)⟩ :: tail)
    | _, _, _ => none

/-- External `hex::decode(text)`. -/
def hexDecode (s : String) : Option (List Byte) :=
  hexDecodeChars s.data

/-- Lowercase hex digit character for `n < 16` (`'0'..'9'`, `'a'..'f'`). -/
def hexDigitChar (n : Nat) : Char :=
  if n < 10 then Char.ofNat (48 + n) else Char.ofNat (87 + n)

/-- External `hex::encode` on a byte list: two lowercase digits per byte. -/
def hexEncodeChars : List Byte → List Char
  | [] => []
  | b :: rest => hexDigitChar (b.val / 16) :: hexDigitChar (b.val % 16) :: hexEncodeChars rest

/-- External `hex::encode(bytes)`. -/
def hexEncode (bs : List Byte) : String :=
  String.mk (hexEncodeChars bs)

/-- Source: `impl Display for PrivateKey`:
`write!(f, "{}{}", DER_PREFIX, hex::encode(self))`, where the `AsRef` view
of the key is its secret bytes. -/
def PrivateKey.to_string (k : PrivateKey) : String :=
  derPrefixStr ++ hexEncode k.asRefBytes

/-- Source: `impl FromStr for PrivateKey`:
`PrivateKey::from_bytes(&hex::decode(&text)?)`; a hex failure surfaces as
the hex-decoding error kind via `KeyError`'s `From` conversion. -/
def PrivateKey.from_str (derive : List Byte → List Byte) (text : String) :
    Except KeyError PrivateKey :=
  match hexDecode text with
  | none => .error KeyError.HexDecode
  | some bytes => PrivateKey.from_bytes derive bytes

/-- A key is constructed when some run of `generate`, `from_bytes` or
`from_str` (with the same derivation function) returned it. -/
def PrivateKey.Constructed (derive : List Byte → List Byte) (k : PrivateKey) : Prop :=
  (∃ entropy, PrivateKey.generate derive entropy = .ok k) ∨
  (∃ data, PrivateKey.from_bytes derive data = .ok k) ∨
  (∃ text, PrivateKey.from_str derive text = .ok k)

/-! ## Helper lemmas about `to_keypair` and the constructors -/

/-- On a buffer of at least 32 bytes, `to_keypair` succeeds and returns the
derived keypair over the first 32 bytes. -/
theorem to_keypair_of_length (derive : List Byte → List Byte) (e : List Byte)
    (h : 32 ≤ e.length) :
    to_keypair derive e = .ok { public := derive (e.take 32), secret := e.take 32 } := by
  have hlen : (e.take 32).length = 32 := by
    rw [List.length_take]; omega
  simp [to_keypair, SecretKey.from_bytes, hlen]

/-- Whenever `to_keypair` succeeds, the secret is the 32-byte head of the
input and the public component is derived from that secret. -/
theorem to_keypair_ok_inv (derive : List Byte → List Byte) (e : List Byte)
    (kp : Keypair) (h : to_keypair derive e = .ok kp) :
    kp.secret = e.take 32 ∧ kp.public = derive kp.secret ∧ kp.secret.length = 32 := by
  by_cases hl : (e.take 32).length = 32
  · rw [to_keypair_of_length derive e (by rw [List.length_take] at hl; omega)] at h
    cases h
    exact ⟨rfl, rfl, hl⟩
  · unfold to_keypair SecretKey.from_bytes at h
    rw [if_neg hl] at h
    simp at h

/-- Inverting the shared `.map` wrapper of the three `from_bytes` branches:
a successful wrapped result comes from a successful `to_keypair` and has
chain code `None`. -/
theorem map_mk_ok_inv (derive : List Byte → List Byte) (e : List Byte)
    (k : PrivateKey)
    (h : (to_keypair derive e).map
      (fun kp => { keypair := kp, chain_code := none }) = .ok k) :
    to_keypair derive e = .ok k.keypair ∧ k.chain_code = none := by
  cases hk : to_keypair derive e with
  | error e' => rw [hk] at h; simp [Except.map] at h
  | ok kp =>
      rw [hk] at h
      simp only [Except.map, Except.ok.injEq] at h
      subst h
      exact ⟨rfl, rfl⟩

/-- A successful `from_bytes` result has chain code `None` and its keypair is
some successful `to_keypair` output. -/
theorem from_bytes_ok_keypair (derive : List Byte → List Byte) (data : List Byte)
    (k : PrivateKey) (h : PrivateKey.from_bytes derive data = .ok k) :
    k.chain_code = none ∧ ∃ e, to_keypair derive e = .ok k.keypair := by
  unfold PrivateKey.from_bytes at h
  split_ifs at h with h32 h48 h64
  · exact ⟨(map_mk_ok_inv derive data k h).2, data, (map_mk_ok_inv derive data k h).1⟩
  · exact ⟨(map_mk_ok_inv derive (data.drop 16) k h).2, data.drop 16,
      (map_mk_ok_inv derive (data.drop 16) k h).1⟩
  · exact ⟨(map_mk_ok_inv derive (data.take 32) k h).2, data.take 32,
      (map_mk_ok_inv derive (data.take 32) k h).1⟩

/-- A successful `generate` result has its keypair from a successful
`to_keypair` run. -/
theorem generate_ok_keypair (derive : List Byte → List Byte) (entropy : List Byte)
    (k : PrivateKey) (h : PrivateKey.generate derive entropy = .ok k) :
    ∃ e, to_keypair derive e = .ok k.keypair := by
  unfold PrivateKey.generate at h
  cases hk : to_keypair derive (entropy.take 32) with
  | error e' => rw [hk] at h; simp at h
  | ok kp =>
      rw [hk] at h; simp only [Except.ok.injEq] at h
      exact ⟨entropy.take 32, by rw [hk, ← h]⟩

/-- A successful `from_str` result is a successful `from_bytes` result. -/
theorem from_str_ok_from_bytes (derive : List Byte → List Byte) (text : String)
    (k : PrivateKey) (h : PrivateKey.from_str derive text = .ok k) :
    ∃ bytes, PrivateKey.from_bytes derive bytes = .ok k := by
  unfold PrivateKey.from_str at h
  cases hd : hexDecode text with
  | none => rw [hd] at h; simp at h
  | some bytes => rw [hd] at h; exact ⟨bytes, h⟩

/-- Every constructed key satisfies the data-model invariants: the secret is
exactly 32 bytes and the public component is its derivation. -/
theorem constructed_inv (derive : List Byte → List Byte) (k : PrivateKey)
    (h : PrivateKey.Constructed derive k) :
    k.keypair.secret.length = 32 ∧ k.keypair.public = derive k.keypair.secret := by
  have hkp : ∃ e, to_keypair derive e = .ok k.keypair := by
    rcases h with ⟨entropy, hg⟩ | ⟨data, hb⟩ | ⟨text, hs⟩
    · exact generate_ok_keypair derive entropy k hg
    · exact (from_bytes_ok_keypair derive data k hb).2
    · rcases from_str_ok_from_bytes derive text k hs with ⟨bytes, hb⟩
      exact (from_bytes_ok_keypair derive bytes k hb).2
  rcases hkp with ⟨e, hk⟩
  rcases to_keypair_ok_inv derive e k.keypair hk with ⟨_, hpub, hlen⟩
  exact ⟨hlen, hpub⟩

/-! ## Helper lemmas about the hex codec -/

/-- Reading back a digit character produced by `hexDigitChar` recovers the
digit. -/
theorem hexDigitVal_hexDigitChar (n : Nat) (h : n < 16) :
    hexDigitVal (hexDigitChar n) = some n := by
  interval_cases n <;> decide

/-- Encoding produces two characters per byte. -/
theorem hexEncodeChars_length (bs : List Byte) :
    (hexEncodeChars bs).length = 2 * bs.length := by
  induction bs with
  | nil => rfl
  | cons b rest ih =>
      simp only [hexEncodeChars, List.length_cons, ih]
      omega

/-- Decoding an encoding recovers the bytes. -/
theorem hexDecodeChars_hexEncodeChars (bs : List Byte) :
    hexDecodeChars (hexEncodeChars bs) = some bs := by
  induction bs with
  | nil => rfl
  | cons b rest ih =>
      have h1 : b.val / 16 < 16 := by have := b.isLt; omega
      have h2 : b.val % 16 < 16 := by omega
      have hval : (b.val / 16 * 16 + b.val % 16) % 256 = b.val := by
        have := b.isLt; omega
      simp only [hexEncodeChars, hexDecodeChars,
        hexDigitVal_hexDigitChar _ h1, hexDigitVal_hexDigitChar _ h2, ih]
      simp [Fin.ext_iff, hval]

/-- Decoding distributes over an even-length front segment. -/
theorem hexDecodeChars_append (cs1 cs2 : List Char) (h : cs1.length % 2 = 0) :
    hexDecodeChars (cs1 ++ cs2) =
      (hexDecodeChars cs1).bind fun a => (hexDecodeChars cs2).map fun b => a ++ b := by
  revert h
  induction cs1 using hexDecodeChars.induct with
  | case1 =>
      intro h
      simp only [List.nil_append, hexDecodeChars]
      cases hexDecodeChars cs2 <;> simp
  | case2 c =>
      intro h
      simp at h
  | case3 c1 c2 rest hi lo tail hrest hc2 hc1 ih =>
      intro h
      have hr : rest.length % 2 = 0 := by
        simp only [List.length_cons] at h; omega
      simp only [List.cons_append, hexDecodeChars, List.append_eq]
      rw [ih hr, hc1, hc2, hrest]
      cases hexDecodeChars cs2 <;> simp
  | case4 c1 c2 rest hfail ih =>
      intro h
      have hr : rest.length % 2 = 0 := by
        simp only [List.length_cons] at h; omega
      simp only [List.cons_append, hexDecodeChars, List.append_eq]
      rw [ih hr]
      cases hc1 : hexDigitVal c1 with
      | none => simp
      | some hi =>
          cases hc2 : hexDigitVal c2 with
          | none => simp
          | some lo =>
              cases hrest : hexDecodeChars rest with
              | none => simp
              | some tail => exact absurd (hfail hi lo tail hc1 hc2 hrest) id

/-- The DER-prefix text decodes to the DER-prefix bytes. -/
theorem hexDecodeChars_derPrefixStr :
    hexDecodeChars derPrefixStr.data = some derPrefixBytes := by decide

/-- The DER-prefix text is 32 characters. -/
theorem derPrefixStr_data_length : derPrefixStr.data.length = 32 := by decide

/-- The DER-prefix bytes number 16. -/
theorem derPrefixBytes_length : derPrefixBytes.length = 16 := by decide

/-! ## Claims C1, C2, C7, C9, C10 -/

/-- C1: `from_bytes` dispatches solely on input length plus the 16-byte DER
prefix: whenever the length is not 32, not 64, and not 48-with-the-prefix,
the result is `LengthError(n)` with `n` the actual input length; in
particular a 48-byte buffer lacking the prefix fails with `LengthError 48`
rather than parsing. -/
theorem C1_from_bytes_length_dispatch (derive : List Byte → List Byte)
    (data : List Byte) (h32 : data.length ≠ 32) (h64 : data.length ≠ 64)
    (h48 : data.length = 48 → data.take 16 ≠ derPrefixBytes) :
    PrivateKey.from_bytes derive data = .error (KeyError.Length data.length) := by
  unfold PrivateKey.from_bytes
  rw [if_neg h32, if_neg (fun hc => h48 hc.1 hc.2), if_neg h64]

/-- C1 witness: a 48-byte all-zero buffer lacks the DER prefix and fails
with `LengthError 48`. -/
theorem C1_from_bytes_length_dispatch_witness :
    PrivateKey.from_bytes id (List.replicate 48 0) = .error (KeyError.Length 48) := by
  have h := C1_from_bytes_length_dispatch id (List.replicate 48 0)
    (by decide) (by decide) (by decide)
  simpa using h

/-- C2: every 32-byte input parses, and `to_bytes` returns exactly the input
bytes. -/
theorem C2_seed_roundtrip (derive : List Byte → List Byte) (s : List Byte)
    (h : s.length = 32) :
    (PrivateKey.from_bytes derive s).map PrivateKey.to_bytes = .ok s := by
  have hts : s.take 32 = s := by rw [← h, List.take_length]
  unfold PrivateKey.from_bytes
  rw [if_pos h, to_keypair_of_length derive s (by omega)]
  simp [Except.map, PrivateKey.to_bytes, hts]

/-- C2 witness at the concrete seed of all-sevens. -/
theorem C2_seed_roundtrip_witness :
    (PrivateKey.from_bytes id (List.replicate 32 7)).map PrivateKey.to_bytes =
      .ok (List.replicate 32 7) :=
  C2_seed_roundtrip id (List.replicate 32 7) (by decide)

/-- C7: on a 64-byte input the result coincides with parsing just the first
32 bytes (so the trailing 32 bytes are discarded without validation), and
the chain code of the parsed key is `None`. -/
theorem C7_from_bytes_64_head_only (derive : List Byte → List Byte)
    (d : List Byte) (h : d.length = 64) :
    PrivateKey.from_bytes derive d = PrivateKey.from_bytes derive (d.take 32) ∧
    (PrivateKey.from_bytes derive d).map PrivateKey.chain_code = .ok none := by
  have ht : (d.take 32).length = 32 := by rw [List.length_take]; omega
  have hn32 : ¬ d.length = 32 := by omega
  have hn48 : ¬ (d.length = 48 ∧ d.take 16 = derPrefixBytes) :=
    fun hc => by have := hc.1; omega
  constructor
  · unfold PrivateKey.from_bytes
    rw [if_neg hn32, if_neg hn48, if_pos h, if_pos ht]
  · unfold PrivateKey.from_bytes
    rw [if_neg hn32, if_neg hn48, if_pos h,
      to_keypair_of_length derive (d.take 32) (by omega)]
    simp [Except.map]

/-- C7 witness: a concrete 64-byte buffer (zero head, all-ones tail) parses
exactly as its 32-byte head does, with chain code `None`. -/
theorem C7_from_bytes_64_head_only_witness :
    PrivateKey.from_bytes id (List.replicate 32 0 ++ List.replicate 32 1) =
      PrivateKey.from_bytes id ((List.replicate 32 0 ++ List.replicate 32 1).take 32) ∧
    (PrivateKey.from_bytes id (List.replicate 32 0 ++ List.replicate 32 1)).map
      PrivateKey.chain_code = .ok none :=
  C7_from_bytes_64_head_only id (List.replicate 32 0 ++ List.replicate 32 1) (by decide)

/-- C9: on 64 bytes of drawn entropy, `generate` succeeds with a 32-byte
secret taken from the first half and a chain code equal to the second half
(in particular the chain code is `Some`). -/
theorem C9_generate_shape (derive : List Byte → List Byte) (entropy : List Byte)
    (h : entropy.length = 64) :
    (PrivateKey.generate derive entropy).map
        (fun k => (k.keypair.secret.length, k.keypair.secret, k.chain_code)) =
      .ok (32, entropy.take 32, some (entropy.drop 32)) := by
  have ht : (entropy.take 32).length = 32 := by rw [List.length_take]; omega
  have htt : (entropy.take 32).take 32 = entropy.take 32 :=
    List.take_of_length_le (by omega)
  have hd : (entropy.drop 32).length = 32 := by rw [List.length_drop]; omega
  have hdt : (entropy.drop 32).take 32 = entropy.drop 32 :=
    List.take_of_length_le (by omega)
  unfold PrivateKey.generate
  rw [to_keypair_of_length derive (entropy.take 32) (by omega), htt]
  simp [Except.map, ht, hdt]

/-- C9 witness at a concrete 64-byte entropy buffer. -/
theorem C9_generate_shape_witness :
    (PrivateKey.generate id (List.replicate 32 2 ++ List.replicate 32 3)).map
        (fun k => (k.keypair.secret.length, k.keypair.secret, k.chain_code)) =
      .ok (32, (List.replicate 32 2 ++ List.replicate 32 3).take 32,
        some ((List.replicate 32 2 ++ List.replicate 32 3).drop 32)) :=
  C9_generate_shape id (List.replicate 32 2 ++ List.replicate 32 3) (by decide)

/-- C10: every accepted shape (32 bytes, 48 bytes with the DER prefix, or
64 bytes) parses successfully — the `SignatureError` path of `to_keypair` is
unreachable from `from_bytes` because the secret-key constructor accepts
every exactly-32-byte slice — and `LengthError` is the only error
`from_bytes` can return, always carrying the actual input length. -/
theorem C10_accepted_shapes_ok (derive : List Byte → List Byte)
    (data : List Byte)
    (h : data.length = 32 ∨ (data.length = 48 ∧ data.take 16 = derPrefixBytes) ∨
      data.length = 64) :
    (PrivateKey.from_bytes derive data).isOk = true ∧
    ∀ d e, PrivateKey.from_bytes derive d = .error e → e = KeyError.Length d.length := by
  constructor
  · unfold PrivateKey.from_bytes
    rcases h with h32 | ⟨h48, hpre⟩ | h64
    · rw [if_pos h32, to_keypair_of_length derive data (by omega)]
      rfl
    · rw [if_neg (show ¬ data.length = 32 by omega), if_pos ⟨h48, hpre⟩,
        to_keypair_of_length derive (data.drop 16) (by rw [List.length_drop]; omega)]
      rfl
    · rw [if_neg (show ¬ data.length = 32 by omega),
        if_neg (show ¬ (data.length = 48 ∧ data.take 16 = derPrefixBytes) from
          fun hc => by have := hc.1; omega),
        if_pos h64,
        to_keypair_of_length derive (data.take 32) (by rw [List.length_take]; omega)]
      rfl
  · intro d e he
    unfold PrivateKey.from_bytes at he
    split_ifs at he with h32 h48 h64
    · rw [to_keypair_of_length derive d (by omega)] at he
      simp [Except.map] at he
    · rw [to_keypair_of_length derive (d.drop 16)
        (by rw [List.length_drop]; omega)] at he
      simp [Except.map] at he
    · rw [to_keypair_of_length derive (d.take 32)
        (by rw [List.length_take]; omega)] at he
      simp [Except.map] at he
    · cases he
      rfl

/-- C10 witness: a concrete 64-byte buffer parses successfully. -/
theorem C10_accepted_shapes_ok_witness :
    (PrivateKey.from_bytes id (List.replicate 64 0)).isOk = true :=
  (C10_accepted_shapes_ok id (List.replicate 64 0)
    (Or.inr (Or.inr (by decide)))).1

/-! ## Claims C3, C4, C5, C6, C8 -/

/-- A sample key over the constant seed of byte `b`: the result of
`from_bytes` with the identity derivation on `List.replicate 32 b`. -/
def sampleKey (b : Byte) : PrivateKey :=
  { keypair := { public := List.replicate 32 b, secret := List.replicate 32 b },
    chain_code := none }

/-- The same sample key but carrying a chain code, as a `generate`-style
provenance would. -/
def sampleKeyChained (b : Byte) : PrivateKey :=
  { keypair := { public := List.replicate 32 b, secret := List.replicate 32 b },
    chain_code := some (List.replicate 32 9) }

/-- C3: for every constructed key, parsing its textual rendering succeeds
and yields a key with the same secret bytes (the secret-bytes-only equality
of the data model). -/
theorem C3_text_roundtrip (derive : List Byte → List Byte) (k : PrivateKey)
    (h : PrivateKey.Constructed derive k) :
    (PrivateKey.from_str derive k.to_string).map PrivateKey.to_bytes =
      .ok k.to_bytes := by
  have hsec : k.keypair.secret.length = 32 := (constructed_inv derive k h).1
  have hdec : hexDecode k.to_string = some (derPrefixBytes ++ k.keypair.secret) := by
    unfold hexDecode PrivateKey.to_string PrivateKey.asRefBytes
    rw [String.data_append]
    have he : (hexEncode k.keypair.secret).data = hexEncodeChars k.keypair.secret := rfl
    rw [he, hexDecodeChars_append _ _ (by rw [derPrefixStr_data_length]),
      hexDecodeChars_derPrefixStr, hexDecodeChars_hexEncodeChars]
    rfl
  have hstep : PrivateKey.from_str derive k.to_string =
      PrivateKey.from_bytes derive (derPrefixBytes ++ k.keypair.secret) := by
    unfold PrivateKey.from_str
    rw [hdec]
  rw [hstep]
  have hlen : (derPrefixBytes ++ k.keypair.secret).length = 48 := by
    rw [List.length_append, derPrefixBytes_length, hsec]
  have hpre : (derPrefixBytes ++ k.keypair.secret).take 16 = derPrefixBytes := by
    have h16 : derPrefixBytes.length = 16 := derPrefixBytes_length
    rw [← h16, List.take_left]
  have hdrop : (derPrefixBytes ++ k.keypair.secret).drop 16 = k.keypair.secret := by
    have h16 : derPrefixBytes.length = 16 := derPrefixBytes_length
    rw [← h16, List.drop_left]
  unfold PrivateKey.from_bytes
  rw [if_neg (show ¬ (derPrefixBytes ++ k.keypair.secret).length = 32 by
      rw [hlen]; omega),
    if_pos ⟨hlen, hpre⟩, hdrop,
    to_keypair_of_length derive k.keypair.secret (by omega),
    List.take_of_length_le (show k.keypair.secret.length ≤ 32 by omega)]
  simp [Except.map, PrivateKey.to_bytes]

/-- C3 witness at the key parsed from the all-zero 32-byte seed (with the
identity derivation). -/
theorem C3_text_roundtrip_witness :
    (PrivateKey.from_str id (sampleKey 0).to_string).map PrivateKey.to_bytes =
      .ok (sampleKey 0).to_bytes :=
  C3_text_roundtrip id _ (Or.inr (Or.inl ⟨List.replicate 32 0, by decide⟩))

/-- C4 counterexample: the key parsed from the all-zero 32-byte seed renders
to a 96-character string, so the claimed total length of 130 characters
(66-character literal + 64 hex) is false — the DER-prefix literal has 32
characters, not 66. -/
theorem C4_text_length_counterexample :
    (PrivateKey.from_bytes id (List.replicate 32 0)).map
        (fun k => k.to_string.length) = .ok 96 ∧ (96 : Nat) ≠ 130 :=
  ⟨by decide, by decide⟩

/-- C4 amended: for every constructed key, regardless of input encoding and
chain-code presence, `to_string` is the literal
`"302e020100300506032b657004220420"` (32 characters) concatenated with the
lowercase hex encoding of the 32 secret bytes, and the total text length is
exactly 96 characters (32 literal + 64 hex). -/
theorem C4_text_canonical_form (derive : List Byte → List Byte) (k : PrivateKey)
    (h : PrivateKey.Constructed derive k) :
    k.to_string = derPrefixStr ++ hexEncode k.to_bytes ∧
    k.to_string.length = 96 := by
  have hsec : k.keypair.secret.length = 32 := (constructed_inv derive k h).1
  refine ⟨rfl, ?_⟩
  unfold PrivateKey.to_string PrivateKey.asRefBytes
  rw [String.length_append]
  have h1 : derPrefixStr.length = 32 := by decide
  have h2 : (hexEncode k.keypair.secret).length = 64 := by
    show (hexEncodeChars k.keypair.secret).length = 64
    rw [hexEncodeChars_length, hsec]
  rw [h1, h2]

/-- C4 amended witness: a concrete constructed key renders to 96
characters. -/
theorem C4_text_canonical_form_witness :
    (sampleKey 6).to_string.length = 96 :=
  (C4_text_canonical_form id _ (Or.inr (Or.inl ⟨List.replicate 32 6, by decide⟩))).2

/-- C5: every constructed key stores a public component equal to the
deterministic derivation of its secret, and `public_key` returns exactly
that stored component. -/
theorem C5_public_consistent (derive : List Byte → List Byte) (k : PrivateKey)
    (h : PrivateKey.Constructed derive k) :
    k.public_key = derive k.keypair.secret ∧ k.public_key = k.keypair.public :=
  ⟨(constructed_inv derive k h).2, rfl⟩

/-- C5 witness at a concrete constructed key (identity derivation). -/
theorem C5_public_consistent_witness :
    (sampleKey 4).public_key = id (sampleKey 4).keypair.secret :=
  (C5_public_consistent id _ (Or.inr (Or.inl ⟨List.replicate 32 4, by decide⟩))).1

/-- C6: equality of two keys holds exactly when their secret bytes agree
(chain code and public component play no part), and equal keys feed
identical byte streams to the hasher. -/
theorem C6_eq_hash_secret_only (a b : PrivateKey) :
    (PrivateKey.beq a b = true ↔ a.keypair.secret = b.keypair.secret) ∧
    (PrivateKey.beq a b = true →
      PrivateKey.hashBytes a = PrivateKey.hashBytes b) := by
  unfold PrivateKey.beq PrivateKey.hashBytes
  exact ⟨beq_iff_eq, fun h => beq_iff_eq.mp h⟩

/-- C6 witness: two keys with the same seed but different chain-code
provenance compare equal. -/
theorem C6_eq_hash_secret_only_witness :
    PrivateKey.beq (sampleKey 5) (sampleKeyChained 5) = true :=
  ((C6_eq_hash_secret_only _ _).1).mpr rfl

/-- C8: `from_str` hex-decodes and then delegates to `from_bytes`: invalid
hex fails with the hex-decoding error kind (not a `LengthError`), and valid
hex returns exactly `from_bytes` of the decoded bytes. -/
theorem C8_from_str_delegates (derive : List Byte → List Byte) (text : String) :
    (hexDecode text = none →
      PrivateKey.from_str derive text = .error KeyError.HexDecode) ∧
    ∀ bytes, hexDecode text = some bytes →
      PrivateKey.from_str derive text = PrivateKey.from_bytes derive bytes := by
  constructor
  · intro h
    unfold PrivateKey.from_str
    rw [h]
  · intro bytes h
    unfold PrivateKey.from_str
    rw [h]

/-- C8 witness: a non-hex string fails with the hex-decoding error kind. -/
theorem C8_from_str_delegates_witness :
    PrivateKey.from_str id "zz" = .error KeyError.HexDecode :=
  (C8_from_str_delegates id "zz").1 (by decide)

end HederaSdk
